import Mathlib

/-!
Shallow embedding of `src/tgt/helpers.py` (repository ferria/TGT), the
evolutionary terrain-heightmap generator, together with theorems settling the
frozen claims about it.

Modelling conventions:
* Python/numpy floats are embedded as real numbers (`ℝ`); `numpy` n-dimensional
  arrays are embedded as the inductive type `Np` of nested lists of scalars,
  which can express the heterogeneous shapes the source actually produces.
* Randomness is threaded explicitly: every stochastic primitive of the source
  (`random.random`, `random.choice`, `random.shuffle`, `np.random.normal`,
  `np.random.rand`) becomes an explicit argument, and theorems quantify
  universally over these arguments, i.e. over every state of the random source.
* Python exceptions (`IndexError` from out-of-bounds numpy fancy indexing,
  `ZeroDivisionError` from `population_size/num_children`) are embedded with
  `Except PyErr`.
* Division that Python performs on floats is performed exactly (on `ℚ` for the
  breeder-pool arithmetic, on `ℝ` elsewhere); all concrete configurations used
  by the claims (4/2, 0/2) are exact dyadic values, where float and exact
  arithmetic agree.
-/

namespace TGT

/-- Python exceptions that the embedded fragment of the source can raise. -/
inductive PyErr where
  | indexError : PyErr
  | zeroDivisionError : PyErr
  | typeError : PyErr
deriving DecidableEq

/-- Embedding of a numpy ndarray: a nested structure of real scalars.
This mirrors numpy closely enough for the source at hand, which builds
arrays of varying rank (the per-row `np.argsort` fancy indexing and the
tuple-appending breeding loop produce arrays of rank 3, 4 and 5). -/
inductive Np where
  | scalar : ℝ → Np
  | arr : List Np → Np

/-- Default/junk array used for out-of-range list accesses that the source
never performs on the executed paths. -/
def npJunk : Np := Np.arr []

/-- Indexing `a[i]` on the outermost axis (Python `member[i]`); on a scalar a
numpy 0-d value has no axis, the branch is unreachable in the embedded paths. -/
def Np.item : Np → ℕ → Np
  | .scalar a, _ => .scalar a
  | .arr l, i => l.getD i npJunk

/-- Value at a multi-index path (repeated outer-axis indexing). -/
def Np.atPath (x : Np) (p : List ℕ) : Np :=
  p.foldl (fun acc k => acc.item k) x

/-- A path that descends through in-range indices all the way to a scalar leaf. -/
inductive Np.ValidPath : Np → List ℕ → Prop
  | nil (a : ℝ) : ValidPath (.scalar a) []
  | cons {l : List Np} {k : ℕ} {p : List ℕ} (hk : k < l.length) :
      ValidPath (l.getD k npJunk) p → ValidPath (.arr l) (k :: p)

mutual

/-- Row-major flattening of an ndarray into its list of scalar entries
(`numpy` reductions such as `np.var`, `np.min`, `np.max`, `np.linalg.norm`
operate on the flattened entries). -/
def Np.flatten : Np → List ℝ
  | .scalar a => [a]
  | .arr l => Np.flattenList l

/-- Helper of `Np.flatten`: concatenation of the flattenings of the children. -/
def Np.flattenList : List Np → List ℝ
  | [] => []
  | x :: xs => x.flatten ++ Np.flattenList xs

end

/-- The numpy `shape` of a (rectangular) ndarray, read along the first-child
path; an empty axis is recorded as length 0 with no further axes. -/
def Np.npShape : Np → List ℕ
  | .scalar _ => []
  | .arr [] => [0]
  | .arr (x :: xs) => (xs.length + 1) :: x.npShape

mutual

/-- Elementwise combination of two same-shaped ndarrays (numpy broadcasting is
not needed at the call sites, which always combine equal shapes; on a shape
mismatch numpy would raise, and we return the left operand, a case no embedded
execution path reaches). -/
def Np.zipWith (f : ℝ → ℝ → ℝ) : Np → Np → Np
  | .scalar a, .scalar b => .scalar (f a b)
  | .arr xs, .arr ys => .arr (Np.zipWithList f xs ys)
  | x, _ => x

/-- Helper of `Np.zipWith`: pairwise combination of two children lists. -/
def Np.zipWithList (f : ℝ → ℝ → ℝ) : List Np → List Np → List Np
  | [], _ => []
  | _ :: _, [] => []
  | x :: xs, y :: ys => Np.zipWith f x y :: Np.zipWithList f xs ys

end

/-- Structural shape equality of two ndarrays. -/
inductive Np.SameShape : Np → Np → Prop
  | scalar (a b : ℝ) : SameShape (.scalar a) (.scalar b)
  | nil : SameShape (.arr []) (.arr [])
  | cons {x y : Np} {xs ys : List Np} : SameShape x y →
      SameShape (.arr xs) (.arr ys) → SameShape (.arr (x :: xs)) (.arr (y :: ys))

mutual

/-- Elementwise `x + mult * U` where `U` is the uniform random matrix drawn by
`np.random.rand(*individual.shape)` in `mutate`, modelled as a function `u`
from the cell's multi-index (the path `pre ++ local index`) to its draw. -/
def Np.addMask (mult : ℝ) (u : List ℕ → ℝ) (pre : List ℕ) : Np → Np
  | .scalar a => .scalar (a + mult * u pre)
  | .arr l => .arr (Np.addMaskList mult u pre 0 l)

/-- Helper of `Np.addMask`: maps the children, extending the path with each
child's index (starting at `i`). -/
def Np.addMaskList (mult : ℝ) (u : List ℕ → ℝ) (pre : List ℕ) (i : ℕ) :
    List Np → List Np
  | [] => []
  | x :: xs => Np.addMask mult u (pre ++ [i]) x :: Np.addMaskList mult u pre (i + 1) xs

end

/-- Mean of a list of reals (`np.mean` on the flattened entries); numpy yields
NaN on an empty array, our embedding yields the `ℝ` division-by-zero junk 0,
a case not reached by any theorem below. -/
noncomputable def npMeanList (l : List ℝ) : ℝ := l.sum / l.length

/-- Population variance, `np.var`: mean of squared deviations from the mean. -/
noncomputable def npVarList (l : List ℝ) : ℝ :=
  ((l.map fun a => (a - npMeanList l) ^ 2).sum) / l.length

/-- Variance of all entries of an ndarray, `np.var(individual)`. -/
noncomputable def npVar (x : Np) : ℝ := npVarList x.flatten

/-- Standard deviation `np.std = sqrt(np.var)`. -/
noncomputable def npStd (x : Np) : ℝ := Real.sqrt (npVar x)

/-- Euclidean norm of a list of entries, `np.linalg.norm`. -/
noncomputable def npNorm (l : List ℝ) : ℝ := Real.sqrt ((l.map fun a => a ^ 2).sum)

/-- Minimum entry, `np.min` (junk 0 on an empty array, where numpy raises;
no embedded path evaluates it on an empty array). -/
noncomputable def npMinList : List ℝ → ℝ
  | [] => 0
  | x :: xs => xs.foldl min x

/-- Maximum entry, `np.max`. -/
noncomputable def npMaxList : List ℝ → ℝ
  | [] => 0
  | x :: xs => xs.foldl max x

/-- Rows `a[:n]` of the outer axis (`individual[:n, :]`). -/
def Np.rowsTake (n : ℕ) : Np → Np
  | .arr l => .arr (l.take n)
  | s => s

/-- Rows `a[n:]` of the outer axis. -/
def Np.rowsDrop (n : ℕ) : Np → Np
  | .arr l => .arr (l.drop n)
  | s => s

/-- Columns `a[:, :n]`: take on the second axis. -/
def Np.colsTake (n : ℕ) : Np → Np
  | .arr l => .arr (l.map (Np.rowsTake n))
  | s => s

/-- Columns `a[:, n:]`: drop on the second axis. -/
def Np.colsDrop (n : ℕ) : Np → Np
  | .arr l => .arr (l.map (Np.rowsDrop n))
  | s => s

/-- Source `loc_glbl_var`: split the grid at the midpoint row/column into four
quadrants, sum their variances and subtract 10 times the global variance.
`mids = tuple(map(lambda x: int(x/2), individual.shape))` is `shape[k] / 2`
with truncating division, which on naturals is `Nat` division. -/
noncomputable def loc_glbl_var (individual : Np) : ℝ :=
  let s := individual.npShape
  let m0 := s.getD 0 0 / 2
  let m1 := s.getD 1 0 / 2
  let s1 := npVar ((individual.rowsTake m0).colsTake m1)
  let s2 := npVar ((individual.rowsTake m0).colsDrop m1)
  let s3 := npVar ((individual.rowsDrop m0).colsTake m1)
  let s4 := npVar ((individual.rowsDrop m0).colsDrop m1)
  s1 + s2 + s3 + s4 - 10 * npVar individual

/-- Source `sea_level`: `np.linalg.norm(individual - target)` (scalar `target`
broadcast over all entries), default target 25.0. -/
noncomputable def sea_level (individual : Np) (target : ℝ) : ℝ :=
  npNorm (individual.flatten.map fun a => a - target)

/-- Source `bedrock`: `np.linalg.norm(np.min(individual) - target)`, the norm
of a scalar, default target -2000.0. -/
noncomputable def bedrock (individual : Np) (target : ℝ) : ℝ :=
  npNorm [npMinList individual.flatten - target]

/-- Source `mountains`: `np.linalg.norm(np.max(individual) - target)`, default
target 3500.0. -/
noncomputable def mountains (individual : Np) (target : ℝ) : ℝ :=
  npNorm [npMaxList individual.flatten - target]

/-- Source `score`: the 4-tuple of metric values, with the source's default
targets, as a list. -/
noncomputable def score (individual : Np) : List ℝ :=
  [loc_glbl_var individual, sea_level individual 25,
   bedrock individual (-2000), mountains individual 3500]

/-- The constant H-by-W grid with every cell equal to `c` (used to state the
constant-grid metric claims). -/
def constNp (h w : ℕ) (c : ℝ) : Np :=
  .arr ((List.range h).map fun _ => .arr ((List.range w).map fun _ => .scalar c))

/-- Source `crossover`, embedded with an explicit store of array references so
that the in-place writes `par1[...] = tmp1 + tmp2`, `par2[...] = tmp1 - tmp2`
and the aliasing of the returned pair `(par2, par2)` are observable: the
arguments are indices `r1`, `r2` into the store, the result is the updated
store together with the two returned references. -/
def crossover (store : List Np) (r1 r2 : ℕ) : List Np × ℕ × ℕ :=
  let tmp1 := store.getD r1 npJunk
  let tmp2 := store.getD r2 npJunk
  let store1 := store.set r1 (Np.zipWith (fun a b => a + b) tmp1 tmp2)
  let store2 := store1.set r2 (Np.zipWith (fun a b => a - b) tmp1 tmp2)
  (store2, r2, r2)

/-- Python `int()` applied to a float: truncation toward zero. -/
noncomputable def truncToZero (x : ℝ) : ℤ := if 0 ≤ x then ⌊x⌋ else ⌈x⌉

/-- The amplitude `mult = 20 * int(np.random.normal(0, np.sqrt(np.std(ind))))`
of source `mutate`; the normal draw of scale `sqrt(std(ind))` is modelled as
that scale times an explicit standard draw `z`. -/
noncomputable def mutMult (individual : Np) (z : ℝ) : ℝ :=
  ((20 * truncToZero (z * Real.sqrt (npStd individual)) : ℤ) : ℝ)

/-- Source `mutate`: add `mult * np.random.rand(*individual.shape)` elementwise
(in place; the source returns the 1-tuple `(individual,)`, whose assignment
back into the population slot numpy squeezes to the individual itself). -/
noncomputable def mutate (individual : Np) (z : ℝ) (u : List ℕ → ℝ) : Np :=
  Np.addMask (mutMult individual z) u [] individual

/-- Source `mutate_population`: for each index `i`, mutate individual `i`
exactly when `random.random() * 100 < mutation_chance`; the draw for slot `i`
is `r i`, and `z i`, `u i` are the draws `mutate` consumes if invoked. -/
noncomputable def mutate_population (population : Np) (mutation_chance : ℝ)
    (r z : ℕ → ℝ) (u : ℕ → List ℕ → ℝ) : Np :=
  match population with
  | .scalar a => .scalar a
  | .arr members =>
    .arr ((List.range members.length).map fun i =>
      if r i * 100 < mutation_chance then mutate (members.getD i npJunk) (z i) (u i)
      else members.getD i npJunk)

/-- Row of `np.argsort(population_fitness)` (default `axis=-1`): the indices
`range(row.length)` sorted by the row's values. Any sort of the index list is
a permutation of `range(row.length)`, the only fact the theorems below use. -/
noncomputable def argsortRow (row : List ℝ) : List ℕ :=
  (List.range row.length).mergeSort fun i j => decide (row.getD i 0 ≤ row.getD j 0)

/-- Numpy integer fancy indexing `population[order]` on the first axis with a
2-D index array: raises `IndexError` when some index is out of bounds,
otherwise replaces every index by the corresponding member. -/
def fancyIndex (members : List Np) (order : List (List ℕ)) : Except PyErr Np :=
  if ∀ row ∈ order, ∀ i ∈ row, i < members.length then
    .ok (.arr (order.map fun row => .arr (row.map fun i => members.getD i npJunk)))
  else .error .indexError

/-- Source `compute_population_fitness`: score every member, `np.argsort` the
(N, 4) score matrix (which sorts each row of four metric values independently)
and fancy-index the population with the resulting (N, 4) index array. -/
noncomputable def compute_population_fitness (population : Np) : Except PyErr Np :=
  match population with
  | .scalar _ => .error .typeError
  | .arr members => fancyIndex members ((members.map score).map argsortRow)

/-- Source `random.shuffle`, modelled by an explicitly supplied permutation
`sigma` of `range(l.length)` to apply; an invalid `sigma` (not such a
permutation, which `random.shuffle` never produces) leaves the list as is,
so the result is a permutation of the input for every `sigma`. -/
def applyPerm (sigma : List ℕ) (l : List Np) : List Np :=
  if sigma.Perm (List.range l.length) then sigma.map fun i => l.getD i npJunk else l

/-- Source `select_from_population`: append the first `num_from_top` members of
the ranked population, then `num_from_random` times append
`random.choice(sorted_population)[0]` - the FIRST ROW of a randomly chosen
member, not the member itself - then shuffle. `picks` are the `random.choice`
draws (reduced mod the population size, as `random.choice` always yields an
in-range index) and `sigma` is the shuffle permutation. Accessing
`sorted_population[i]` out of range and `random.choice` on an empty population
raise `IndexError`. -/
def select_from_population (sorted_population : Np) (num_from_top num_from_random : ℕ)
    (picks : List ℕ) (sigma : List ℕ) : Except PyErr Np :=
  match sorted_population with
  | .scalar _ => .error .typeError
  | .arr members =>
    if num_from_top ≤ members.length then
      if num_from_random = 0 ∨ 0 < members.length then
        let top := (List.range num_from_top).map fun i => members.getD i npJunk
        let rnd := (List.range num_from_random).map fun k =>
          (members.getD (picks.getD k 0 % members.length) npJunk).item 0
        .ok (.arr (applyPerm sigma (top ++ rnd)))
      else .error .indexError
    else .error .indexError

/-- Modelled from the spec: the function `breed` that `breed_population` calls
is not defined in `src/tgt/helpers.py` (nor imported there); only its caller is
in src/. Per spec section 4.5 it is the CrossoverOperator, sum/difference
variant: operate on copies of the parents and return
`(parent1 + parent2, parent1 - parent2)` as two fresh children. The driver
facts proved below (population count, member shapes, the generation-2 crash)
depend only on `breed` returning a pair of parent-shaped grids, which both
spec variants guarantee. -/
def breed (par1 par2 : Np) : Np × Np :=
  (Np.zipWith (fun a b => a + b) par1 par2, Np.zipWith (fun a b => a - b) par1 par2)

/-- Source `breed_population`: for `i in range(ceil(len(breeders)/2))` and each
of `number_of_children` repetitions, append `breed(breeders[i],
breeders[len(breeders)-1-i])`; the appended value is the returned TUPLE of two
children, which `np.array` then stacks into an extra axis of length 2. -/
def breed_population (breeders : Np) (number_of_children : ℕ) : Np :=
  match breeders with
  | .scalar _ => .arr []
  | .arr b =>
    .arr (((List.range ((b.length + 1) / 2)).map fun i =>
      (List.range number_of_children).map fun _ =>
        let c := breed (b.getD i npJunk) (b.getD (b.length - 1 - i) npJunk)
        Np.arr [c.1, c.2]).flatten)

/-- Source `generate_basic_perlin_noise`: cell (i, j) is the 2-D coherent
noise function sampled at `(i/h, j/w)` with the layering parameters. The
external `noise.pnoise2` primitive is the parameter `pnoise`, a pure function
of its arguments. The source's `random.seed(None)` reseeds the process-wide
`random` module from OS entropy but nothing in the returned grid reads that
source, so the grid is a pure function of the arguments (the float32 store of
each cell rounds identically on identical inputs). -/
noncomputable def generate_basic_perlin_noise
    (pnoise : ℝ → ℝ → ℕ → ℝ → ℝ → ℕ → ℕ → ℤ → ℝ)
    (h w : ℕ) (octaves : ℕ) (persistence lacunarity : ℝ)
    (repeatx repeaty : ℕ) (base : ℤ) : Np :=
  .arr ((List.range h).map fun (i : ℕ) =>
    .arr ((List.range w).map fun (j : ℕ) =>
      .scalar (pnoise ((i : ℝ) / (h : ℝ)) ((j : ℝ) / (w : ℝ))
        octaves persistence lacunarity repeatx repeaty base)))

/-- Source `generate_original_population`: `pop_size` calls of
`generate_basic_perlin_noise(h, w)` with the source's default layering
parameters (octaves 8, persistence 0.5, lacunarity 2.0, repeats 1024, base 0)
stacked by `np.array`. Every call has identical arguments, so all members are
the same grid. -/
noncomputable def generate_original_population (pnoise : ℝ → ℝ → ℕ → ℝ → ℝ → ℕ → ℕ → ℤ → ℝ)
    (h w pop_size : ℕ) : Np :=
  .arr ((List.range pop_size).map fun _ =>
    generate_basic_perlin_noise pnoise h w 8 0.5 2 1024 1024 0)

/-- The per-generation random draws consumed by the driver loop body. -/
structure GenRand where
  picks : List ℕ
  shuf : List ℕ
  r : ℕ → ℝ
  z : ℕ → ℝ
  u : ℕ → List ℕ → ℝ

/-- One iteration of the driver loop of `run_genetic_algorithm`:
rank via `compute_population_fitness`, select breeders, breed, then mutate
with the hard-coded mutation chance 0.3. -/
noncomputable def evolve_step (num_from_best num_from_random num_children : ℕ)
    (gr : GenRand) (population : Np) : Except PyErr Np :=
  match compute_population_fitness population with
  | .error e => .error e
  | .ok sorted =>
    match select_from_population sorted num_from_best num_from_random gr.picks gr.shuf with
    | .error e => .error e
    | .ok selection =>
      .ok (mutate_population (breed_population selection num_children) 0.3 gr.r gr.z gr.u)

/-- The `for i in range(generations)` loop, threading the generation index so
that generation `g` consumes the draws `rng g`. -/
noncomputable def ga_loop (num_from_best num_from_random num_children : ℕ)
    (rng : ℕ → GenRand) (g : ℕ) : ℕ → Np → Except PyErr Np
  | 0, population => .ok population
  | n + 1, population =>
    match evolve_step num_from_best num_from_random num_children (rng g) population with
    | .error e => .error e
    | .ok next => ga_loop num_from_best num_from_random num_children rng (g + 1) n next

/-- Source `run_genetic_algorithm`: build the initial population, compute
`num_from_best = ceil(population_size/num_children * .75)` and
`num_from_random = floor(population_size/num_children * .25)` (raising
`ZeroDivisionError` when `num_children = 0`, as Python float division does),
then run the generational loop. -/
noncomputable def run_genetic_algorithm (pnoise : ℝ → ℝ → ℕ → ℝ → ℝ → ℕ → ℕ → ℤ → ℝ)
    (h w generations population_size num_children : ℕ) (rng : ℕ → GenRand) :
    Except PyErr Np :=
  let population := generate_original_population pnoise h w population_size
  if num_children = 0 then .error .zeroDivisionError
  else
    let q : ℚ := (population_size : ℚ) / (num_children : ℚ)
    let num_from_best := (⌈q * 0.75⌉).toNat
    let num_from_random := (⌊q * 0.25⌋).toNat
    ga_loop num_from_best num_from_random num_children rng 0 generations population

/-- Source `generate`, the entry point: run the genetic algorithm with the
source's default configuration (10 generations, population 4, 2 children per
pair; the `octaves` parameter is accepted and ignored, exactly as in the
source) and return `population[0]`, raising `IndexError` on an empty result. -/
noncomputable def generate (pnoise : ℝ → ℝ → ℕ → ℝ → ℝ → ℕ → ℕ → ℤ → ℝ)
    (rng : ℕ → GenRand) (H W octaves : ℕ) : Except PyErr Np :=
  match run_genetic_algorithm pnoise H W 10 4 2 rng with
  | .error e => .error e
  | .ok (.scalar _) => .error .typeError
  | .ok (.arr []) => .error .indexError
  | .ok (.arr (g :: _)) => .ok g

/-- The one grid that seeds the default 8-by-8 run: every member of the
initial population is this same grid, since `generate_original_population`
calls the noise generator with identical arguments each time. -/
noncomputable def baseGrid (pnoise : ℝ → ℝ → ℕ → ℝ → ℝ → ℕ → ℕ → ℤ → ℝ) : Np :=
  generate_basic_perlin_noise pnoise 8 8 8 0.5 2 1024 1024 0

/-!
## Helper lemmas
-/

/-- Structural induction principle for `Np` exposing membership in the `arr`
case, built on the auto-generated nested recursor. -/
theorem Np.induct (motive : Np → Prop) (hs : ∀ a, motive (.scalar a))
    (ha : ∀ l, (∀ x ∈ l, motive x) → motive (.arr l)) : ∀ x, motive x :=
  fun x =>
    @Np.rec motive (fun l => ∀ y ∈ l, motive y) hs ha
      (fun y hy => absurd hy (List.not_mem_nil y))
      (fun head tail ih1 ih2 y hy => by
        rcases List.mem_cons.mp hy with h | h
        · exact h ▸ ih1
        · exact ih2 y h)
      x

/-- Reading a mapped range at an in-range index gives the function value. -/
theorem getD_range_map {α : Type} (f : ℕ → α) (n i : ℕ) (d : α) (h : i < n) :
    ((List.range n).map f).getD i d = f i := by
  rw [List.getD_eq_getElem _ _ (by simpa using h)]
  simp

/-- Reading a replicate at an in-range index gives the replicated value. -/
theorem getD_replicate {α : Type} (a d : α) (n i : ℕ) (h : i < n) :
    (List.replicate n a).getD i d = a := by
  rw [List.getD_eq_getElem _ _ (by simpa using h)]
  simp

/-- Mapping index lookup over the full index range rebuilds the list. -/
theorem range_map_getD {α : Type} (l : List α) (d : α) :
    (List.range l.length).map (fun i => l.getD i d) = l := by
  apply List.ext_getElem
  · simp
  · intro i h1 h2
    simp [List.getD_eq_getElem _ _ h2, List.getElem?_eq_getElem h2]

/-- A map whose values are all `c` is a replicate. -/
theorem map_eq_replicate {α β : Type} (l : List α) (f : α → β) (c : β)
    (h : ∀ x ∈ l, f x = c) : l.map f = List.replicate l.length c := by
  rw [List.map_congr_left h]
  exact List.map_const' l c

/-- `applyPerm` always returns a permutation of its input list. -/
theorem applyPerm_perm (sigma : List ℕ) (l : List Np) : (applyPerm sigma l).Perm l := by
  unfold applyPerm
  split
  · next hp =>
    have h1 : (sigma.map fun i => l.getD i npJunk).Perm
        ((List.range l.length).map fun i => l.getD i npJunk) := hp.map _
    rw [range_map_getD] at h1
    exact h1
  · exact List.Perm.refl l

/-- `applyPerm` on a replicate returns the replicate unchanged. -/
theorem applyPerm_replicate (sigma : List ℕ) (n : ℕ) (c : Np) :
    applyPerm sigma (List.replicate n c) = List.replicate n c := by
  unfold applyPerm
  split
  · next hp =>
    have hlen : sigma.length = n := by simpa using hp.length_eq
    have : ∀ i ∈ sigma, (List.replicate n c).getD i npJunk = c := by
      intro i hi
      exact getD_replicate _ _ _ _ (by simpa using hp.mem_iff.mp hi)
    rw [map_eq_replicate _ _ _ this, hlen]
  · rfl

/-- The length of `Np.addMaskList` equals the length of its input. -/
theorem addMaskList_length (mult : ℝ) (u : List ℕ → ℝ) :
    ∀ (l : List Np) (pre : List ℕ) (i : ℕ),
      (Np.addMaskList mult u pre i l).length = l.length := by
  intro l
  induction l with
  | nil => intro pre i; rfl
  | cons x xs ih => intro pre i; simp [Np.addMaskList, ih]

/-- Reading `Np.addMaskList` at an in-range index. -/
theorem addMaskList_getD (mult : ℝ) (u : List ℕ → ℝ) :
    ∀ (l : List Np) (pre : List ℕ) (i k : ℕ), k < l.length →
      (Np.addMaskList mult u pre i l).getD k npJunk =
        Np.addMask mult u (pre ++ [i + k]) (l.getD k npJunk) := by
  intro l
  induction l with
  | nil => intro pre i k hk; simp at hk
  | cons x xs ih =>
    intro pre i k hk
    cases k with
    | zero => simp [Np.addMaskList]
    | succ k =>
      have hk' : k < xs.length := by simpa using hk
      have := ih pre (i + 1) k hk'
      simpa [Np.addMaskList, Nat.add_assoc, Nat.add_comm 1 k] using this

/-- Adding a mask does not change the shape of an ndarray. -/
theorem addMask_npShape (mult : ℝ) (u : List ℕ → ℝ) :
    ∀ (x : Np) (pre : List ℕ), (Np.addMask mult u pre x).npShape = x.npShape := by
  intro x
  induction x using Np.induct with
  | hs a => intro pre; rfl
  | ha l ih =>
    intro pre
    cases l with
    | nil => rfl
    | cons x xs =>
      simp only [Np.addMask, Np.addMaskList, Np.npShape,
        addMaskList_length, ih x (by simp) (pre ++ [0])]

/-- The value of a masked array at a valid leaf path: the original leaf plus
`mult` times the mask draw at that path. -/
theorem atPath_addMask (mult : ℝ) (u : List ℕ → ℝ) :
    ∀ {x : Np} {p : List ℕ}, Np.ValidPath x p → ∀ {a : ℝ}, x.atPath p = .scalar a →
      ∀ pre, (Np.addMask mult u pre x).atPath p = .scalar (a + mult * u (pre ++ p)) := by
  intro x p h
  induction h with
  | nil b =>
    intro a hx pre
    have hb : b = a := by simpa [Np.atPath] using hx
    subst hb
    simp [Np.addMask, Np.atPath]
  | cons hk hvp ih =>
    rename_i l k p
    intro a hx pre
    have h1 : (Np.arr l).atPath (k :: p) = (l.getD k npJunk).atPath p := rfl
    rw [h1] at hx
    have h2 : (Np.addMask mult u pre (.arr l)).atPath (k :: p) =
        ((Np.addMaskList mult u pre 0 l).getD k npJunk).atPath p := rfl
    rw [h2, addMaskList_getD mult u l pre 0 k hk]
    have := ih hx (pre ++ [0 + k])
    simpa [List.append_assoc] using this

/-- Flattening a replicated list of ndarrays. -/
theorem flattenList_replicate (n : ℕ) (x : Np) :
    Np.flattenList (List.replicate n x) = (List.replicate n x.flatten).flatten := by
  induction n with
  | zero => rfl
  | succ n ih => simp [List.replicate_succ, Np.flattenList, ih]

/-- Flattening a replicate of replicates. -/
theorem flatten_replicate_replicate {α : Type} (n m : ℕ) (c : α) :
    (List.replicate n (List.replicate m c)).flatten = List.replicate (n * m) c := by
  induction n with
  | zero => simp
  | succ n ih =>
    rw [List.replicate_succ, List.flatten_cons, ih, ← List.replicate_add]
    congr 1
    ring

/-- The constant grid as nested replicates. -/
theorem constNp_eq (h w : ℕ) (c : ℝ) :
    constNp h w c = .arr (List.replicate h (.arr (List.replicate w (.scalar c)))) := by
  simp [constNp, List.map_const']

/-- Flattening a rectangular block of the constant `c` gives a replicate. -/
theorem flatten_block (k m : ℕ) (c : ℝ) :
    (Np.arr (List.replicate k (.arr (List.replicate m (.scalar c))))).flatten =
      List.replicate (k * m) c := by
  have hrow : (Np.arr (List.replicate m (.scalar c))).flatten = List.replicate m c := by
    show Np.flattenList (List.replicate m (.scalar c)) = List.replicate m c
    rw [flattenList_replicate]
    show (List.replicate m [c]).flatten = List.replicate m c
    have := flatten_replicate_replicate m 1 c
    simpa using this
  show Np.flattenList (List.replicate k (.arr (List.replicate m (.scalar c)))) = _
  rw [flattenList_replicate, hrow, flatten_replicate_replicate]

/-- The variance of a constant list is zero. -/
theorem npVarList_replicate (n : ℕ) (c : ℝ) : npVarList (List.replicate n c) = 0 := by
  rcases Nat.eq_zero_or_pos n with h | h
  · subst h; simp [npVarList, npMeanList]
  · have hmean : npMeanList (List.replicate n c) = c := by
      have hn : (n : ℝ) ≠ 0 := Nat.cast_ne_zero.mpr (by omega)
      simp [npMeanList, List.sum_replicate, nsmul_eq_mul]
      field_simp
    simp [npVarList, hmean, List.sum_replicate]

/-- The variance of a constant rectangular block is zero. -/
theorem npVar_block (k m : ℕ) (c : ℝ) :
    npVar (Np.arr (List.replicate k (.arr (List.replicate m (.scalar c))))) = 0 := by
  rw [npVar, flatten_block, npVarList_replicate]

/-- Minimum of a nonempty constant list. -/
theorem npMinList_replicate (n : ℕ) (c : ℝ) (h : 0 < n) :
    npMinList (List.replicate n c) = c := by
  obtain ⟨m, rfl⟩ : ∃ m, n = m + 1 := ⟨n - 1, by omega⟩
  rw [List.replicate_succ]
  show (List.replicate m c).foldl min c = c
  induction m with
  | zero => rfl
  | succ m ih => simpa [List.replicate_succ] using ih

/-- Maximum of a nonempty constant list. -/
theorem npMaxList_replicate (n : ℕ) (c : ℝ) (h : 0 < n) :
    npMaxList (List.replicate n c) = c := by
  obtain ⟨m, rfl⟩ : ∃ m, n = m + 1 := ⟨n - 1, by omega⟩
  rw [List.replicate_succ]
  show (List.replicate m c).foldl max c = c
  induction m with
  | zero => rfl
  | succ m ih => simpa [List.replicate_succ] using ih

/-- The Euclidean norm of a single entry is its absolute value. -/
theorem npNorm_singleton (x : ℝ) : npNorm [x] = |x| := by
  simp [npNorm, Real.sqrt_sq_eq_abs]

/-- The shape of a nonempty replicate array. -/
theorem npShape_replicate_arr (n : ℕ) (x : Np) :
    (Np.arr (List.replicate (n + 1) x)).npShape = (n + 1) :: x.npShape := by
  simp [List.replicate_succ, Np.npShape]

/-- Same shapes have equal numpy shapes. -/
theorem Np.SameShape.npShape_eq : ∀ {x y : Np}, Np.SameShape x y → x.npShape = y.npShape := by
  intro x y h
  induction h with
  | scalar a b => rfl
  | nil => rfl
  | cons h1 h2 ih1 ih2 =>
    rename_i x y xs ys
    have hlen : xs.length = ys.length := by
      have := congrArg (fun l => l.headD 0) ih2
      cases xs <;> cases ys <;> simpa [Np.npShape] using this
    simp [Np.npShape, ih1, hlen]

/-- Same-shaped array lists have equal lengths. -/
theorem sameShape_arr_length :
    ∀ {xs ys : List Np}, Np.SameShape (.arr xs) (.arr ys) → xs.length = ys.length := by
  intro xs
  induction xs with
  | nil => intro ys h; cases h; rfl
  | cons x xs ih =>
    intro ys h
    cases h with
    | cons h1 h2 =>
      rename_i y ys
      simpa using ih h2

/-- Combining same-shaped children lists preserves the list length. -/
theorem zipWithList_length_of_sameShape (f : ℝ → ℝ → ℝ) :
    ∀ {xs ys : List Np}, Np.SameShape (.arr xs) (.arr ys) →
      (Np.zipWithList f xs ys).length = xs.length := by
  intro xs
  induction xs with
  | nil => intro ys h; cases h; rfl
  | cons x xs ih =>
    intro ys h
    cases h with
    | cons h1 h2 =>
      rename_i y ys
      simpa [Np.zipWithList] using ih h2

/-- Elementwise combination of same-shaped arrays preserves the shape. -/
theorem zipWith_npShape (f : ℝ → ℝ → ℝ) :
    ∀ {x y : Np}, Np.SameShape x y → (Np.zipWith f x y).npShape = x.npShape := by
  intro x y h
  induction h with
  | scalar a b => rfl
  | nil => rfl
  | cons h1 h2 ih1 ih2 =>
    rename_i x y xs ys
    have h4 : Np.zipWith f (.arr (x :: xs)) (.arr (y :: ys)) =
        .arr (Np.zipWith f x y :: Np.zipWithList f xs ys) := rfl
    rw [h4]
    simp [Np.npShape, ih1, zipWithList_length_of_sameShape f h2]

/-- Row-slicing a constant block yields a constant block. -/
theorem rowsTake_block (n k m : ℕ) (c : ℝ) :
    (Np.arr (List.replicate k (.arr (List.replicate m (.scalar c))))).rowsTake n =
      .arr (List.replicate (min n k) (.arr (List.replicate m (.scalar c)))) := by
  simp [Np.rowsTake, List.take_replicate]

/-- Row-dropping a constant block yields a constant block. -/
theorem rowsDrop_block (n k m : ℕ) (c : ℝ) :
    (Np.arr (List.replicate k (.arr (List.replicate m (.scalar c))))).rowsDrop n =
      .arr (List.replicate (k - n) (.arr (List.replicate m (.scalar c)))) := by
  simp [Np.rowsDrop, List.drop_replicate]

/-- Column-slicing a constant block yields a constant block. -/
theorem colsTake_block (n k m : ℕ) (c : ℝ) :
    (Np.arr (List.replicate k (.arr (List.replicate m (.scalar c))))).colsTake n =
      .arr (List.replicate k (.arr (List.replicate (min n m) (.scalar c)))) := by
  simp [Np.colsTake, List.map_replicate, Np.rowsTake, List.take_replicate]

/-- Column-dropping a constant block yields a constant block. -/
theorem colsDrop_block (n k m : ℕ) (c : ℝ) :
    (Np.arr (List.replicate k (.arr (List.replicate m (.scalar c))))).colsDrop n =
      .arr (List.replicate k (.arr (List.replicate (m - n) (.scalar c)))) := by
  simp [Np.colsDrop, List.map_replicate, Np.rowsDrop, List.drop_replicate]

/-- The quadrant-variance metric vanishes on every constant grid: all four
quadrants and the whole grid are constant, so every variance term is zero. -/
theorem loc_glbl_var_const (h w : ℕ) (c : ℝ) : loc_glbl_var (constNp h w c) = 0 := by
  rw [constNp_eq]
  unfold loc_glbl_var
  simp only [rowsTake_block, rowsDrop_block, colsTake_block, colsDrop_block,
    npVar_block]
  ring

/-- The sea-level metric on the constant grid: `sqrt(h*w) * |c - 25|`, a
function of `c` only through the distance `|c - 25|` to the target. -/
theorem sea_level_const (h w : ℕ) (c : ℝ) :
    sea_level (constNp h w c) 25 = Real.sqrt (h * w) * |c - 25| := by
  rw [constNp_eq]
  unfold sea_level npNorm
  rw [flatten_block, List.map_replicate, List.map_replicate, List.sum_replicate,
    nsmul_eq_mul]
  push_cast
  rw [Real.sqrt_mul (by positivity), Real.sqrt_sq_eq_abs]

/-- The bedrock metric on a nonempty constant grid: `|c + 2000|`. -/
theorem bedrock_const (h w : ℕ) (c : ℝ) (hh : 0 < h) (hw : 0 < w) :
    bedrock (constNp h w c) (-2000) = |c + 2000| := by
  rw [constNp_eq]
  unfold bedrock
  rw [flatten_block, npMinList_replicate _ _ (by positivity), npNorm_singleton]
  norm_num

/-- The mountain metric on a nonempty constant grid: `|c - 3500|`. -/
theorem mountains_const (h w : ℕ) (c : ℝ) (hh : 0 < h) (hw : 0 < w) :
    mountains (constNp h w c) 3500 = |c - 3500| := by
  rw [constNp_eq]
  unfold mountains
  rw [flatten_block, npMaxList_replicate _ _ (by positivity), npNorm_singleton]

/-!
## Claim theorems
-/

/-- C5 (counterexample): the claim "each of the sea-level, bedrock, and
mountain metrics varies monotonically with c" is false as stated: on constant
2-by-2 grids the sea-level metric is `2 * |c - 25|`, which strictly decreases
from c = -75 to c = 25 (200 to 0), refuting monotone increase, and strictly
increases from c = 25 to c = 125 (0 to 200), refuting monotone decrease. -/
theorem sea_level_not_monotone_on_constant_grids :
    ¬ ((Monotone fun c : ℝ => sea_level (constNp 2 2 c) 25) ∨
       (Antitone fun c : ℝ => sea_level (constNp 2 2 c) 25)) := by
  have hval : ∀ c : ℝ, sea_level (constNp 2 2 c) 25 = 2 * |c - 25| := by
    intro c
    have h4 : Real.sqrt (((2 : ℕ) : ℝ) * ((2 : ℕ) : ℝ)) = 2 := by
      rw [show (((2 : ℕ) : ℝ) * ((2 : ℕ) : ℝ)) = 2 ^ 2 by norm_num,
        Real.sqrt_sq (by norm_num)]
    rw [sea_level_const, h4]
  rintro (hmono | hanti)
  · have hle := hmono (show (-75 : ℝ) ≤ 25 by norm_num)
    simp only [hval] at hle
    have e1 : |(-75 : ℝ) - 25| = 100 := by
      rw [show ((-75 : ℝ) - 25) = -100 by norm_num, abs_of_nonpos] <;> norm_num
    have e2 : |(25 : ℝ) - 25| = 0 := by norm_num
    rw [e1, e2] at hle
    linarith
  · have hle := hanti (show (25 : ℝ) ≤ 125 by norm_num)
    simp only [hval] at hle
    have e1 : |(125 : ℝ) - 25| = 100 := by
      rw [show ((125 : ℝ) - 25) = 100 by norm_num, abs_of_nonneg] <;> norm_num
    have e2 : |(25 : ℝ) - 25| = 0 := by norm_num
    rw [e1, e2] at hle
    linarith

/-- C5 (amended): on every constant grid with at least 2 rows and 2 columns
the quadrant-variance metric is 0 for any c, and the sea-level, bedrock and
mountain metrics equal `sqrt(h*w) * |c - 25|`, `|c + 2000|` and `|c - 3500|`
respectively: each depends on c only through the absolute distance to its
target (decreasing below the target, increasing above), but is not globally
monotone in c. -/
theorem metrics_on_constant_grids (h w : ℕ) (c : ℝ) (hh : 2 ≤ h) (hw : 2 ≤ w) :
    loc_glbl_var (constNp h w c) = 0 ∧
    sea_level (constNp h w c) 25 = Real.sqrt (h * w) * |c - 25| ∧
    bedrock (constNp h w c) (-2000) = |c + 2000| ∧
    mountains (constNp h w c) 3500 = |c - 3500| :=
  ⟨loc_glbl_var_const h w c, sea_level_const h w c,
   bedrock_const h w c (by omega) (by omega), mountains_const h w c (by omega) (by omega)⟩

/-- C5 (witness): the amended statement instantiated at h = w = 2, c = 0. -/
theorem metrics_on_constant_grids_witness :
    (2 ≤ 2 ∧ 2 ≤ 2) ∧
    (loc_glbl_var (constNp 2 2 0) = 0 ∧
     sea_level (constNp 2 2 0) 25 = Real.sqrt (2 * 2) * |(0 : ℝ) - 25| ∧
     bedrock (constNp 2 2 0) (-2000) = |(0 : ℝ) + 2000| ∧
     mountains (constNp 2 2 0) 3500 = |(0 : ℝ) - 3500|) := by
  refine ⟨⟨le_refl 2, le_refl 2⟩, ?_⟩
  have := metrics_on_constant_grids 2 2 0 (le_refl 2) (le_refl 2)
  simpa using this

/-- C2 (counterexample): for the concrete 1-by-1 parents p1 = [[1]] and
p2 = [[2]], the source `crossover` returns the SAME reference twice (both
returned outputs alias `par2`), and the value at the first returned output is
p1 - p2 = [[-1]], not p1 + p2 = [[3]]; this refutes both the "child1 =
parent1 + parent2" clause and the "two returned outputs are distinct (no
aliasing)" clause of the claim. -/
theorem crossover_claim_false :
    (crossover [Np.arr [.arr [.scalar 1]], Np.arr [.arr [.scalar 2]]] 0 1).2.1 =
      (crossover [Np.arr [.arr [.scalar 1]], Np.arr [.arr [.scalar 2]]] 0 1).2.2 ∧
    (crossover [Np.arr [.arr [.scalar 1]], Np.arr [.arr [.scalar 2]]] 0 1).1.getD
        ((crossover [Np.arr [.arr [.scalar 1]], Np.arr [.arr [.scalar 2]]] 0 1).2.1) npJunk =
      Np.zipWith (fun a b => a - b) (.arr [.arr [.scalar 1]]) (.arr [.arr [.scalar 2]]) ∧
    Np.zipWith (fun a b => a - b) (.arr [.arr [.scalar 1]]) (.arr [.arr [.scalar 2]]) ≠
      Np.zipWith (fun a b => a + b) (.arr [.arr [.scalar 1]]) (.arr [.arr [.scalar 2]]) := by
  refine ⟨rfl, rfl, ?_⟩
  intro hcontra
  simp only [Np.zipWith, Np.zipWithList, Np.arr.injEq, List.cons.injEq, and_true,
    Np.scalar.injEq] at hcontra
  norm_num at hcontra

/-- C2 (amended): `crossover` reads both parents, overwrites the `par1` slot
in place with parent1 + parent2 and the `par2` slot with parent1 - parent2,
and returns the `par2` reference TWICE: both returned outputs alias the second
parent and carry the value parent1 - parent2; for same-shaped parents both
stored children have the parents' shape. -/
theorem crossover_actual_contract (store : List Np) (r1 r2 : ℕ)
    (h1 : r1 < store.length) (h2 : r2 < store.length) (hne : r1 ≠ r2)
    (hs : Np.SameShape (store.getD r1 npJunk) (store.getD r2 npJunk)) :
    (crossover store r1 r2).2.1 = r2 ∧
    (crossover store r1 r2).2.2 = r2 ∧
    (crossover store r1 r2).1.getD r2 npJunk =
      Np.zipWith (fun a b => a - b) (store.getD r1 npJunk) (store.getD r2 npJunk) ∧
    (crossover store r1 r2).1.getD r1 npJunk =
      Np.zipWith (fun a b => a + b) (store.getD r1 npJunk) (store.getD r2 npJunk) ∧
    (Np.zipWith (fun a b => a - b) (store.getD r1 npJunk)
        (store.getD r2 npJunk)).npShape = (store.getD r1 npJunk).npShape ∧
    (Np.zipWith (fun a b => a + b) (store.getD r1 npJunk)
        (store.getD r2 npJunk)).npShape = (store.getD r1 npJunk).npShape := by
  refine ⟨rfl, rfl, ?_, ?_, zipWith_npShape _ hs, zipWith_npShape _ hs⟩
  · show ((store.set r1 _).set r2 _).getD r2 npJunk = _
    rw [List.getD_eq_getElem _ _ (by simpa using h2)]
    rw [List.getElem_set_self]
  · show ((store.set r1 _).set r2 _).getD r1 npJunk = _
    rw [List.getD_eq_getElem _ _ (by simpa using h1)]
    rw [List.getElem_set_ne (by omega), List.getElem_set_self]

/-- C2 (witness): the amended contract instantiated at the store
[[[1]], [[2]]] with references 0 and 1. -/
theorem crossover_actual_contract_witness :
    ((0 : ℕ) < ([Np.arr [.arr [.scalar 1]], Np.arr [.arr [.scalar 2]]] : List Np).length ∧
     (1 : ℕ) < ([Np.arr [.arr [.scalar 1]], Np.arr [.arr [.scalar 2]]] : List Np).length ∧
     (0 : ℕ) ≠ 1 ∧
     Np.SameShape (([Np.arr [.arr [.scalar 1]], Np.arr [.arr [.scalar 2]]] : List Np).getD 0 npJunk)
       (([Np.arr [.arr [.scalar 1]], Np.arr [.arr [.scalar 2]]] : List Np).getD 1 npJunk)) ∧
    ((crossover [Np.arr [.arr [.scalar 1]], Np.arr [.arr [.scalar 2]]] 0 1).2.1 = 1 ∧
     (crossover [Np.arr [.arr [.scalar 1]], Np.arr [.arr [.scalar 2]]] 0 1).2.2 = 1 ∧
     (crossover [Np.arr [.arr [.scalar 1]], Np.arr [.arr [.scalar 2]]] 0 1).1.getD 1 npJunk =
       Np.zipWith (fun a b => a - b)
         (([Np.arr [.arr [.scalar 1]], Np.arr [.arr [.scalar 2]]] : List Np).getD 0 npJunk)
         (([Np.arr [.arr [.scalar 1]], Np.arr [.arr [.scalar 2]]] : List Np).getD 1 npJunk) ∧
     (crossover [Np.arr [.arr [.scalar 1]], Np.arr [.arr [.scalar 2]]] 0 1).1.getD 0 npJunk =
       Np.zipWith (fun a b => a + b)
         (([Np.arr [.arr [.scalar 1]], Np.arr [.arr [.scalar 2]]] : List Np).getD 0 npJunk)
         (([Np.arr [.arr [.scalar 1]], Np.arr [.arr [.scalar 2]]] : List Np).getD 1 npJunk) ∧
     (Np.zipWith (fun a b => a - b)
         (([Np.arr [.arr [.scalar 1]], Np.arr [.arr [.scalar 2]]] : List Np).getD 0 npJunk)
         (([Np.arr [.arr [.scalar 1]], Np.arr [.arr [.scalar 2]]] : List Np).getD 1 npJunk)).npShape =
       (([Np.arr [.arr [.scalar 1]], Np.arr [.arr [.scalar 2]]] : List Np).getD 0 npJunk).npShape ∧
     (Np.zipWith (fun a b => a + b)
         (([Np.arr [.arr [.scalar 1]], Np.arr [.arr [.scalar 2]]] : List Np).getD 0 npJunk)
         (([Np.arr [.arr [.scalar 1]], Np.arr [.arr [.scalar 2]]] : List Np).getD 1 npJunk)).npShape =
       (([Np.arr [.arr [.scalar 1]], Np.arr [.arr [.scalar 2]]] : List Np).getD 0 npJunk).npShape) :=
  ⟨⟨by norm_num, by norm_num, by norm_num,
    Np.SameShape.cons (Np.SameShape.cons (Np.SameShape.scalar 1 2) Np.SameShape.nil)
      Np.SameShape.nil⟩,
   crossover_actual_contract _ 0 1 (by norm_num) (by norm_num) (by norm_num)
     (Np.SameShape.cons (Np.SameShape.cons (Np.SameShape.scalar 1 2) Np.SameShape.nil)
       Np.SameShape.nil)⟩

/-- C4 (counterexample): with the ranked population [gA, gB] of 2-by-2 grids,
`num_from_top = 0` and `num_from_random = 1`, the selection stage returns a
pool whose single element is `random.choice(sorted_population)[0]` - the first
ROW [1, 2] of the chosen grid gA - which is not a whole individual of the
population (it differs from both gA and gB), refuting the claim that the
random picks are whole individuals drawn from the population. -/
theorem select_random_pick_not_whole_individual :
    select_from_population
        (.arr [.arr [.arr [.scalar 1, .scalar 2], .arr [.scalar 3, .scalar 4]],
               .arr [.arr [.scalar 5, .scalar 6], .arr [.scalar 7, .scalar 8]]]) 0 1 [0] [0] =
      .ok (.arr [.arr [.scalar 1, .scalar 2]]) ∧
    (Np.arr [.scalar 1, .scalar 2]) ≠
      Np.arr [.arr [.scalar 1, .scalar 2], .arr [.scalar 3, .scalar 4]] ∧
    (Np.arr [.scalar 1, .scalar 2]) ≠
      Np.arr [.arr [.scalar 5, .scalar 6], .arr [.scalar 7, .scalar 8]] := by
  refine ⟨?_, by simp, by simp⟩
  rfl

/-- C4 (amended): the deterministic part of the claim holds: with
`num_from_top = N` and `num_from_random = 0` the selection stage returns a
permutation (the shuffle) of exactly the N ranked individuals; the random
part is corrected: each random pick contributes the first row of a randomly
chosen individual, not the whole individual. -/
theorem select_top_n_is_permutation (members : List Np) (picks sigma : List ℕ) :
    ∃ l, select_from_population (.arr members) members.length 0 picks sigma =
      .ok (.arr l) ∧ l.Perm members := by
  refine ⟨applyPerm sigma members, ?_, applyPerm_perm sigma members⟩
  simp only [select_from_population, le_refl, if_true, true_or, List.range_zero,
    List.map_nil, List.append_nil]
  rw [show ((List.range members.length).map fun i => members.getD i npJunk) = members from
    range_map_getD members npJunk]

/-- C9: the noise-field generator is deterministic - two calls with identical
arguments produce identical grids (the grid is a pure function of its
arguments; the `random.seed(None)` side effect reseeds the process-wide
`random` module but nothing in the output reads it) - and cell (i, j) is the
coherent-noise function sampled at normalized coordinates (i/h, j/w) with the
given layering parameters. -/
theorem noise_grid_deterministic_and_cellwise
    (pnoise : ℝ → ℝ → ℕ → ℝ → ℝ → ℕ → ℕ → ℤ → ℝ)
    (h w octaves : ℕ) (persistence lacunarity : ℝ) (repeatx repeaty : ℕ) (base : ℤ)
    (i j : ℕ) (hi : i < h) (hj : j < w) :
    generate_basic_perlin_noise pnoise h w octaves persistence lacunarity repeatx repeaty base =
      generate_basic_perlin_noise pnoise h w octaves persistence lacunarity repeatx repeaty base ∧
    ((generate_basic_perlin_noise pnoise h w octaves persistence lacunarity repeatx
        repeaty base).item i).item j =
      .scalar (pnoise ((i : ℝ) / (h : ℝ)) ((j : ℝ) / (w : ℝ)) octaves persistence
        lacunarity repeatx repeaty base) := by
  refine ⟨rfl, ?_⟩
  unfold generate_basic_perlin_noise
  simp only [Np.item]
  rw [getD_range_map _ _ _ _ hi]
  simp only [Np.item]
  rw [getD_range_map _ _ _ _ hj]

/-- C9 (witness): the cell formula instantiated at a concrete noise function
and h = w = 2, i = 0, j = 1. -/
theorem noise_grid_deterministic_and_cellwise_witness :
    ((0 : ℕ) < 2 ∧ (1 : ℕ) < 2) ∧
    (generate_basic_perlin_noise (fun _ _ _ _ _ _ _ _ => 7) 2 2 8 0.5 2 1024 1024 0 =
      generate_basic_perlin_noise (fun _ _ _ _ _ _ _ _ => 7) 2 2 8 0.5 2 1024 1024 0 ∧
    ((generate_basic_perlin_noise (fun _ _ _ _ _ _ _ _ => 7) 2 2 8 0.5 2 1024 1024
        0).item 0).item 1 =
      .scalar ((fun _ _ _ _ _ _ _ _ => (7 : ℝ)) (((0 : ℕ) : ℝ) / ((2 : ℕ) : ℝ))
        (((1 : ℕ) : ℝ) / ((2 : ℕ) : ℝ)) 8 0.5 2 1024 1024 0)) :=
  ⟨⟨by norm_num, by norm_num⟩,
   noise_grid_deterministic_and_cellwise (fun _ _ _ _ _ _ _ _ => 7) 2 2 8 0.5 2 1024 1024 0
     0 1 (by norm_num) (by norm_num)⟩

/-- C8: with mutation chance 0 the mutation stage returns every individual
bit-identical (no draw `r i` in [0,1) satisfies `r i * 100 < 0`); with chance
100 every individual passes the gate (`r i * 100 < 100` for `r i < 1`) and is
replaced by its mutated value, which differs from the original whenever the
amplitude `mult * u` is nonzero at some valid cell - i.e. unless the random
amplitude draw degenerates to zero. -/
theorem mutation_chance_zero_and_hundred (members : List Np) (r z : ℕ → ℝ)
    (u : ℕ → List ℕ → ℝ) (hr : ∀ i, 0 ≤ r i ∧ r i < 1) :
    mutate_population (.arr members) 0 r z u = .arr members ∧
    (∀ i, i < members.length →
      (mutate_population (.arr members) 100 r z u).item i =
        mutate (members.getD i npJunk) (z i) (u i)) ∧
    (∀ i, i < members.length → ∀ p (a : ℝ), Np.ValidPath (members.getD i npJunk) p →
      (members.getD i npJunk).atPath p = .scalar a →
      mutMult (members.getD i npJunk) (z i) * u i p ≠ 0 →
      mutate (members.getD i npJunk) (z i) (u i) ≠ members.getD i npJunk) := by
  refine ⟨?_, ?_, ?_⟩
  · simp only [mutate_population]
    have hcongr : ∀ i ∈ List.range members.length,
        (if r i * 100 < (0 : ℝ) then mutate (members.getD i npJunk) (z i) (u i)
         else members.getD i npJunk) = members.getD i npJunk := by
      intro i _
      exact if_neg (not_lt.mpr (mul_nonneg (hr i).1 (by norm_num)))
    rw [List.map_congr_left hcongr, range_map_getD]
  · intro i hi
    simp only [mutate_population, Np.item]
    rw [getD_range_map _ _ _ _ hi]
    exact if_pos (by nlinarith [(hr i).2])
  · intro i hi p a hvp hap hMu heq
    have h1 := atPath_addMask (mutMult (members.getD i npJunk) (z i)) (u i) hvp hap []
    rw [List.nil_append] at h1
    have h2 : (mutate (members.getD i npJunk) (z i) (u i)).atPath p =
        .scalar (a + mutMult (members.getD i npJunk) (z i) * u i p) := h1
    rw [heq, hap] at h2
    have h3 : a = a + mutMult (members.getD i npJunk) (z i) * u i p := by
      exact Np.scalar.inj h2
    apply hMu
    linarith

/-- C8 (witness): the chance-0/chance-100 statement instantiated at the
one-member population [[5]] with all draws equal to 1/2 resp. 0. -/
theorem mutation_chance_zero_and_hundred_witness :
    (∀ i : ℕ, 0 ≤ (fun _ : ℕ => (1 : ℝ) / 2) i ∧ (fun _ : ℕ => (1 : ℝ) / 2) i < 1) ∧
    (mutate_population (.arr [Np.arr [Np.scalar 5]]) 0 (fun _ => (1 : ℝ) / 2)
        (fun _ => 0) (fun _ _ => 0) = .arr [Np.arr [Np.scalar 5]] ∧
    (∀ i, i < ([Np.arr [Np.scalar 5]] : List Np).length →
      (mutate_population (.arr [Np.arr [Np.scalar 5]]) 100 (fun _ => (1 : ℝ) / 2)
          (fun _ => 0) (fun _ _ => 0)).item i =
        mutate (([Np.arr [Np.scalar 5]] : List Np).getD i npJunk) 0 (fun _ => 0)) ∧
    (∀ i, i < ([Np.arr [Np.scalar 5]] : List Np).length → ∀ p (a : ℝ),
      Np.ValidPath (([Np.arr [Np.scalar 5]] : List Np).getD i npJunk) p →
      (([Np.arr [Np.scalar 5]] : List Np).getD i npJunk).atPath p = .scalar a →
      mutMult (([Np.arr [Np.scalar 5]] : List Np).getD i npJunk) 0 * (0 : ℝ) ≠ 0 →
      mutate (([Np.arr [Np.scalar 5]] : List Np).getD i npJunk) 0 (fun _ => 0) ≠
        ([Np.arr [Np.scalar 5]] : List Np).getD i npJunk)) :=
  ⟨fun _ => ⟨by norm_num, by norm_num⟩,
   mutation_chance_zero_and_hundred [Np.arr [Np.scalar 5]] (fun _ => (1 : ℝ) / 2)
     (fun _ => 0) (fun _ _ => 0) (fun _ => ⟨by norm_num, by norm_num⟩)⟩

/-- Any argsort row is a permutation of the index range of its input row. -/
theorem argsortRow_perm (row : List ℝ) : (argsortRow row).Perm (List.range row.length) :=
  List.mergeSort_perm _ _

/-- The score vector always has four components. -/
theorem score_length (x : Np) : (score x).length = 4 := rfl

/-- Combining a children list with itself maps each child with itself. -/
theorem zipWithList_same (f : ℝ → ℝ → ℝ) :
    ∀ l : List Np, Np.zipWithList f l l = l.map fun x => Np.zipWith f x x := by
  intro l
  induction l with
  | nil => rfl
  | cons x xs ih => simp [Np.zipWithList, ih]

/-- Elementwise combination of an array with itself. -/
theorem zipWith_arr_same (f : ℝ → ℝ → ℝ) (l : List Np) :
    Np.zipWith f (.arr l) (.arr l) = .arr (l.map fun x => Np.zipWith f x x) := by
  show Np.arr (Np.zipWithList f l l) = _
  rw [zipWithList_same]

/-- Shape of a nonempty range-mapped array. -/
theorem npShape_arr_range_map (n : ℕ) (f : ℕ → Np) (h : 0 < n) :
    (Np.arr ((List.range n).map f)).npShape = n :: (f 0).npShape := by
  obtain ⟨m, rfl⟩ : ∃ m, n = m + 1 := ⟨n - 1, by omega⟩
  rw [List.range_succ_eq_map, List.map_cons]
  simp [Np.npShape]

/-- Shape of a nonempty replicate array. -/
theorem npShape_replicate_arr_pos (n : ℕ) (x : Np) (h : 0 < n) :
    (Np.arr (List.replicate n x)).npShape = n :: x.npShape := by
  obtain ⟨m, rfl⟩ : ∃ m, n = m + 1 := ⟨n - 1, by omega⟩
  exact npShape_replicate_arr m x

/-- Combining the 8-by-8 seed grid with itself yields an 8-by-8 grid. -/
theorem npShape_zip_baseGrid (f : ℝ → ℝ → ℝ)
    (pnoise : ℝ → ℝ → ℕ → ℝ → ℝ → ℕ → ℕ → ℤ → ℝ) :
    (Np.zipWith f (baseGrid pnoise) (baseGrid pnoise)).npShape = [8, 8] := by
  unfold baseGrid generate_basic_perlin_noise
  rw [zipWith_arr_same, List.map_map]
  rw [npShape_arr_range_map 8 _ (by norm_num)]
  simp only [Function.comp_apply]
  rw [zipWith_arr_same, List.map_map]
  rw [npShape_arr_range_map 8 _ (by norm_num)]
  simp [Np.zipWith, Np.npShape]

/-- Shape of a bred child of two rank-3 stacks of seed grids. -/
theorem npShape_bred_child (f : ℝ → ℝ → ℝ)
    (pnoise : ℝ → ℝ → ℕ → ℝ → ℝ → ℕ → ℕ → ℤ → ℝ) :
    (Np.zipWith f (.arr (List.replicate 4 (baseGrid pnoise)))
      (.arr (List.replicate 4 (baseGrid pnoise)))).npShape = [4, 8, 8] := by
  rw [zipWith_arr_same, List.map_replicate, npShape_replicate_arr_pos 4 _ (by norm_num),
    npShape_zip_baseGrid]

/-- The initial default population: four copies of the same seed grid, since
every noise call has identical arguments. -/
theorem initial_population_eq (pnoise : ℝ → ℝ → ℕ → ℝ → ℝ → ℕ → ℕ → ℤ → ℝ) :
    generate_original_population pnoise 8 8 4 = .arr (List.replicate 4 (baseGrid pnoise)) := by
  simp only [generate_original_population, baseGrid, List.map_const', List.length_range]

/-- Ranking a population of four equal members: every fitness row is the same,
each per-row argsort is a permutation of range 4, and the fancy indexing
rebuilds a 4-by-4 stack of the one grid. -/
theorem fitness_on_replicate4 (g : Np) :
    compute_population_fitness (.arr (List.replicate 4 g)) =
      .ok (.arr (List.replicate 4 (.arr (List.replicate 4 g)))) := by
  have hperm : (argsortRow (score g)).Perm (List.range 4) := by
    have := argsortRow_perm (score g)
    rwa [score_length] at this
  have hmem : ∀ i ∈ argsortRow (score g), i < 4 := by
    intro i hi
    simpa using hperm.mem_iff.mp hi
  have hlen : (argsortRow (score g)).length = 4 := by
    simpa using hperm.length_eq
  simp only [compute_population_fitness]
  rw [List.map_replicate, List.map_replicate]
  unfold fancyIndex
  rw [if_pos ?hc]
  case hc =>
    intro row hrow i hi
    rw [List.eq_of_mem_replicate hrow] at hi
    simpa using hmem i hi
  have hinner : Np.arr ((argsortRow (score g)).map fun i => (List.replicate 4 g).getD i npJunk) =
      .arr (List.replicate 4 g) := by
    congr 1
    rw [map_eq_replicate _ _ g fun i hi => getD_replicate _ _ _ _ (hmem i hi), hlen]
  rw [List.map_replicate, hinner]

/-- Selecting 2 from the top and 0 at random out of the ranked stack of four
equal rows returns those two rows, for every shuffle draw. -/
theorem select_on_sorted (R : Np) (picks sigma : List ℕ) :
    select_from_population (.arr (List.replicate 4 R)) 2 0 picks sigma =
      .ok (.arr (List.replicate 2 R)) := by
  simp only [select_from_population, List.length_replicate]
  rw [if_pos (by norm_num : (2 : ℕ) ≤ 4)]
  rw [if_pos (show True ∨ 0 < 4 from Or.inl trivial)]
  have htop : ((List.range 2).map fun i => (List.replicate 4 R).getD i npJunk) =
      List.replicate 2 R := by
    rw [map_eq_replicate _ _ R ?h, List.length_range]
    case h =>
      intro i hi
      exact getD_replicate _ _ _ _ (by simp at hi; omega)
  rw [htop]
  simp only [List.range_zero, List.map_nil, List.append_nil]
  rw [applyPerm_replicate]

/-- Breeding the two selected breeders with two children per pair: one pair
(indices 0 and 1), two appended child TUPLES, each stacked by `np.array` into
an extra axis holding the sum child and the difference child. -/
theorem breed_on_two (R : Np) :
    breed_population (.arr (List.replicate 2 R)) 2 =
      .arr (List.replicate 2 (.arr [Np.zipWith (fun a b => a + b) R R,
        Np.zipWith (fun a b => a - b) R R])) := by
  simp [breed_population, breed, List.range_succ, List.replicate_succ]

/-- Mutating a two-member population replaces each slot by the gated value. -/
theorem mutate_population_replicate2 (C : Np) (ch : ℝ) (r z : ℕ → ℝ)
    (u : ℕ → List ℕ → ℝ) :
    mutate_population (.arr (List.replicate 2 C)) ch r z u =
      .arr ((List.range 2).map fun i =>
        if r i * 100 < ch then mutate C (z i) (u i) else C) := by
  simp only [mutate_population, List.length_replicate]
  refine congrArg Np.arr (List.map_congr_left ?_)
  intro i hi
  rw [getD_replicate _ _ _ _ (by simp at hi; omega)]

/-- Generation 1 of the default run, for any draws: the population of four
equal seed grids becomes two members, each a (2, 4, 8, 8) stack. -/
theorem evolve_step_gen1 (pnoise : ℝ → ℝ → ℕ → ℝ → ℝ → ℕ → ℕ → ℤ → ℝ) (gr : GenRand) :
    ∃ p1 : List Np,
      evolve_step 2 0 2 gr (.arr (List.replicate 4 (baseGrid pnoise))) = .ok (.arr p1) ∧
      p1.length = 2 ∧ ∀ x ∈ p1, x.npShape = [2, 4, 8, 8] := by
  refine ⟨(List.range 2).map fun i =>
    if gr.r i * 100 < 0.3 then
      mutate (.arr [Np.zipWith (fun a b => a + b)
          (.arr (List.replicate 4 (baseGrid pnoise))) (.arr (List.replicate 4 (baseGrid pnoise))),
        Np.zipWith (fun a b => a - b)
          (.arr (List.replicate 4 (baseGrid pnoise))) (.arr (List.replicate 4 (baseGrid pnoise)))])
        (gr.z i) (gr.u i)
    else
      .arr [Np.zipWith (fun a b => a + b)
          (.arr (List.replicate 4 (baseGrid pnoise))) (.arr (List.replicate 4 (baseGrid pnoise))),
        Np.zipWith (fun a b => a - b)
          (.arr (List.replicate 4 (baseGrid pnoise))) (.arr (List.replicate 4 (baseGrid pnoise)))],
    ?_, by simp, ?_⟩
  · simp only [evolve_step, fitness_on_replicate4, select_on_sorted, breed_on_two,
      mutate_population_replicate2]
  · intro x hx
    obtain ⟨i, hi, rfl⟩ := List.mem_map.mp hx
    have hshape : (Np.arr [Np.zipWith (fun a b => a + b)
        (.arr (List.replicate 4 (baseGrid pnoise))) (.arr (List.replicate 4 (baseGrid pnoise))),
      Np.zipWith (fun a b => a - b)
        (.arr (List.replicate 4 (baseGrid pnoise)))
        (.arr (List.replicate 4 (baseGrid pnoise)))]).npShape = [2, 4, 8, 8] := by
      show (2 : ℕ) :: (Np.zipWith (fun a b => a + b)
        (.arr (List.replicate 4 (baseGrid pnoise)))
        (.arr (List.replicate 4 (baseGrid pnoise)))).npShape = [2, 4, 8, 8]
      rw [npShape_bred_child]
    split
    · rw [show mutate _ (gr.z i) (gr.u i) = Np.addMask _ (gr.u i) [] _ from rfl,
        addMask_npShape, hshape]
    · exact hshape

/-- Generation 2 of the default run always crashes: the population now has two
members, but each per-row argsort still yields a permutation of range 4, so an
index of at least 2 (namely 3) reaches `population[order]`: IndexError. -/
theorem evolve_step_len2 (p : List Np) (hp : p.length = 2) (nb nr nc : ℕ) (gr : GenRand) :
    evolve_step nb nr nc gr (.arr p) = .error .indexError := by
  obtain ⟨m1, m2, rfl⟩ := List.length_eq_two.mp hp
  have hfail : compute_population_fitness (.arr [m1, m2]) = .error .indexError := by
    simp only [compute_population_fitness]
    unfold fancyIndex
    rw [if_neg]
    intro hall
    have hperm : (argsortRow (score m1)).Perm (List.range 4) := by
      have := argsortRow_perm (score m1)
      rwa [score_length] at this
    have h3 : 3 ∈ argsortRow (score m1) := hperm.mem_iff.mpr (by simp)
    have := hall (argsortRow (score m1)) (by simp) 3 h3
    simp at this
  simp only [evolve_step, hfail]

/-- Unfolding one iteration of the generational loop. -/
theorem ga_loop_succ (nb nr nc : ℕ) (rng : ℕ → GenRand) (g n : ℕ) (pop : Np) :
    ga_loop nb nr nc rng g (n + 1) pop =
      match evolve_step nb nr nc (rng g) pop with
      | .error e => .error e
      | .ok next => ga_loop nb nr nc rng (g + 1) n next := rfl

/-- The generational loop with zero remaining iterations returns its input. -/
theorem ga_loop_zero (nb nr nc : ℕ) (rng : ℕ → GenRand) (g : ℕ) (pop : Np) :
    ga_loop nb nr nc rng g 0 pop = .ok pop := rfl

/-- The default driver configuration: population 4, 2 children per pair gives
`num_from_best = ceil(4/2 * .75) = 2` and `num_from_random = floor(4/2 * .25)
= 0`, and the initial population is four copies of the seed grid. -/
theorem run_default_core (pnoise : ℝ → ℝ → ℕ → ℝ → ℝ → ℕ → ℕ → ℤ → ℝ)
    (gens : ℕ) (rng : ℕ → GenRand) :
    run_genetic_algorithm pnoise 8 8 gens 4 2 rng =
      ga_loop 2 0 2 rng 0 gens (.arr (List.replicate 4 (baseGrid pnoise))) := by
  simp only [run_genetic_algorithm]
  rw [if_neg (by norm_num : ¬(2 = 0))]
  rw [show (⌈((4 : ℕ) : ℚ) / ((2 : ℕ) : ℚ) * 0.75⌉).toNat = 2 by
    rw [show ((4 : ℕ) : ℚ) / ((2 : ℕ) : ℚ) * 0.75 = 3 / 2 by norm_num]
    rw [show ⌈(3 / 2 : ℚ)⌉ = 2 by rw [Int.ceil_eq_iff] <;> norm_num]
    rfl]
  rw [show (⌊((4 : ℕ) : ℚ) / ((2 : ℕ) : ℚ) * 0.25⌋).toNat = 0 by
    rw [show ((4 : ℕ) : ℚ) / ((2 : ℕ) : ℚ) * 0.25 = 1 / 2 by norm_num]
    rw [show ⌊(1 / 2 : ℚ)⌋ = 0 by rw [Int.floor_eq_iff] <;> norm_num]
    rfl]
  rw [initial_population_eq]

/-- A one-generation default run, for any noise function and any random
draws: it succeeds and returns a population of exactly two members, each a
(2, 4, 8, 8) stack rather than an 8-by-8 grid. -/
theorem run1_trace (pnoise : ℝ → ℝ → ℕ → ℝ → ℝ → ℕ → ℕ → ℤ → ℝ) (rng : ℕ → GenRand) :
    ∃ p1 : List Np, run_genetic_algorithm pnoise 8 8 1 4 2 rng = .ok (.arr p1) ∧
      p1.length = 2 ∧ ∀ x ∈ p1, x.npShape = [2, 4, 8, 8] := by
  obtain ⟨p1, hstep, hlen, hsh⟩ := evolve_step_gen1 pnoise (rng 0)
  refine ⟨p1, ?_, hlen, hsh⟩
  rw [run_default_core]
  calc ga_loop 2 0 2 rng 0 1 (.arr (List.replicate 4 (baseGrid pnoise)))
      = match evolve_step 2 0 2 (rng 0) (.arr (List.replicate 4 (baseGrid pnoise))) with
        | .error e => .error e
        | .ok next => ga_loop 2 0 2 rng 1 0 next := ga_loop_succ 2 0 2 rng 0 0 _
    _ = ga_loop 2 0 2 rng 1 0 (.arr p1) := by rw [hstep]
    _ = .ok (.arr p1) := rfl

/-- C1: the entry point `generate(8, 8, octaves)` never returns a grid: with
the hard-coded defaults (10 generations, population 4, 2 children per pair)
generation 1 shrinks the population to two (2, 4, 8, 8) stacks, and generation
2's per-row argsort fancy indexing `population[order]` is out of bounds, so
the run raises IndexError for every noise function and every state of the
random source. -/
theorem generate_always_raises_index_error
    (pnoise : ℝ → ℝ → ℕ → ℝ → ℝ → ℕ → ℕ → ℤ → ℝ) (rng : ℕ → GenRand) (octaves : ℕ) :
    generate pnoise rng 8 8 octaves = .error .indexError := by
  have hrun : run_genetic_algorithm pnoise 8 8 10 4 2 rng = .error .indexError := by
    rw [run_default_core]
    obtain ⟨p1, hstep, hlen, _⟩ := evolve_step_gen1 pnoise (rng 0)
    have h2 := evolve_step_len2 p1 hlen 2 0 2 (rng 1)
    calc ga_loop 2 0 2 rng 0 10 (.arr (List.replicate 4 (baseGrid pnoise)))
        = match evolve_step 2 0 2 (rng 0) (.arr (List.replicate 4 (baseGrid pnoise))) with
          | .error e => .error e
          | .ok next => ga_loop 2 0 2 rng 1 9 next := ga_loop_succ 2 0 2 rng 0 9 _
      _ = ga_loop 2 0 2 rng 1 9 (.arr p1) := by rw [hstep]
      _ = match evolve_step 2 0 2 (rng 1) (.arr p1) with
          | .error e => .error e
          | .ok next => ga_loop 2 0 2 rng 2 8 next := ga_loop_succ 2 0 2 rng 1 8 _
      _ = .error .indexError := by rw [h2]
  simp only [generate, hrun]

/-- C3: the population size is NOT preserved: with the driver's own default
configuration (population 4, 2 children per pair) a single generation yields
a next population of exactly 2 members (ceil(2 breeders / 2) = 1 pair times 2
children), not 4, for every noise function and every random state. -/
theorem population_size_not_preserved
    (pnoise : ℝ → ℝ → ℕ → ℝ → ℝ → ℕ → ℕ → ℤ → ℝ) (rng : ℕ → GenRand) :
    ∃ p1 : List Np, run_genetic_algorithm pnoise 8 8 1 4 2 rng = .ok (.arr p1) ∧
      p1.length = 2 := by
  obtain ⟨p1, h, hlen, _⟩ := run1_trace pnoise rng
  exact ⟨p1, h, hlen⟩

/-- C6: the driver does not return the top-ranked grid of the final
population: a terminating (one-generation) default run yields a final
population that is never re-ranked and whose members - including the first
element, which `generate` would return - are (2, 4, 8, 8) stacks, not 8-by-8
grids (and with the hard-coded 10 generations the driver raises instead of
returning at all). -/
theorem driver_result_not_ranked_grid
    (pnoise : ℝ → ℝ → ℕ → ℝ → ℝ → ℕ → ℕ → ℤ → ℝ) (rng : ℕ → GenRand) :
    ∃ p1 : List Np, run_genetic_algorithm pnoise 8 8 1 4 2 rng = .ok (.arr p1) ∧
      p1 ≠ [] ∧ (∀ x ∈ p1, x.npShape = [2, 4, 8, 8]) ∧
      (p1.headD npJunk).npShape ≠ [8, 8] := by
  obtain ⟨p1, h, hlen, hsh⟩ := run1_trace pnoise rng
  have hne : p1 ≠ [] := by
    intro hnil
    rw [hnil] at hlen
    simp at hlen
  refine ⟨p1, h, hne, hsh, ?_⟩
  cases p1 with
  | nil => exact absurd rfl hne
  | cons a as =>
    have ha := hsh a (by simp)
    simp only [List.headD_cons]
    rw [ha]
    simp

/-- The shuffle of an empty pool is empty. -/
theorem applyPerm_nil (sigma : List ℕ) : applyPerm sigma [] = [] := by
  unfold applyPerm
  split
  · next hp =>
    have : sigma = [] := by simpa using hp.eq_nil
    subst this
    rfl
  · rfl

/-- C7: no upfront configuration validation exists. With population size 0
(and 2 children per pair) the driver runs its generational loop to completion
and returns an empty population - no error of any kind is raised before (or
in) the loop, and `generate` would only fail afterwards when indexing
`population[0]`. With children-per-pair 0 the failure is the naive
`ZeroDivisionError` from `population_size/num_children`, not an
InvalidConfiguration error; and no InvalidConfiguration error exists anywhere
in the embedded error type of the source. -/
theorem no_invalid_configuration_check
    (pnoise : ℝ → ℝ → ℕ → ℝ → ℝ → ℕ → ℕ → ℤ → ℝ) (rng : ℕ → GenRand) :
    run_genetic_algorithm pnoise 8 8 1 0 2 rng = .ok (.arr []) ∧
    run_genetic_algorithm pnoise 8 8 1 4 0 rng = .error .zeroDivisionError := by
  constructor
  · simp only [run_genetic_algorithm]
    rw [if_neg (by norm_num : ¬(2 = 0))]
    rw [show (⌈((0 : ℕ) : ℚ) / ((2 : ℕ) : ℚ) * 0.75⌉).toNat = 0 by
      rw [show ((0 : ℕ) : ℚ) / ((2 : ℕ) : ℚ) * 0.75 = 0 by norm_num]
      simp]
    rw [show (⌊((0 : ℕ) : ℚ) / ((2 : ℕ) : ℚ) * 0.25⌋).toNat = 0 by
      rw [show ((0 : ℕ) : ℚ) / ((2 : ℕ) : ℚ) * 0.25 = 0 by norm_num]
      simp]
    have hpop : generate_original_population pnoise 8 8 0 = .arr [] := by
      simp [generate_original_population]
    rw [hpop]
    have hfit : compute_population_fitness (.arr ([] : List Np)) = .ok (.arr []) := by
      simp only [compute_population_fitness, List.map_nil]
      unfold fancyIndex
      rw [if_pos ?hc]
      case hc =>
        intro row hrow
        simp at hrow
      simp
    have hsel : select_from_population (.arr ([] : List Np)) 0 0 (rng 0).picks
        (rng 0).shuf = .ok (.arr []) := by
      simp only [select_from_population, List.length_nil]
      rw [if_pos (show True ∨ 0 < 0 from Or.inl trivial)]
      simp only [List.range_zero, List.map_nil, List.append_nil]
      rw [applyPerm_nil, if_pos (le_refl 0)]
    have hbreed : breed_population (.arr ([] : List Np)) 2 = .arr [] := by
      simp [breed_population]
    have hmut : mutate_population (.arr ([] : List Np)) 0.3 (rng 0).r (rng 0).z
        (rng 0).u = .arr [] := by
      simp [mutate_population]
    have hstep : evolve_step 0 0 2 (rng 0) (.arr []) = .ok (.arr []) := by
      simp only [evolve_step, hfit, hsel, hbreed, hmut]
    calc ga_loop 0 0 2 rng 0 1 (.arr [])
        = match evolve_step 0 0 2 (rng 0) (.arr []) with
          | .error e => .error e
          | .ok next => ga_loop 0 0 2 rng 1 0 next := ga_loop_succ 0 0 2 rng 0 0 _
      _ = ga_loop 0 0 2 rng 1 0 (.arr []) := by rw [hstep]
      _ = .ok (.arr []) := rfl
  · simp [run_genetic_algorithm]

/-- C10: the mutation stage gates individual i on `random.random() * 100 <
mutation_chance`, i.e. a 0-100 percent scale; the set of uniform draws in
[0, 1) that trigger mutation at the driver's hard-coded chance 0.3 is exactly
[0, 0.003), whose Lebesgue measure is 0.003 - a per-generation mutation
probability of 0.3 percent, not 30 percent. -/
theorem mutation_chance_percent_scale (members : List Np) (chance : ℝ) (r z : ℕ → ℝ)
    (u : ℕ → List ℕ → ℝ) (i : ℕ) (hi : i < members.length) :
    (mutate_population (.arr members) chance r z u).item i =
      (if r i * 100 < chance then mutate (members.getD i npJunk) (z i) (u i)
       else members.getD i npJunk) ∧
    {x : ℝ | x ∈ Set.Ico (0 : ℝ) 1 ∧ x * 100 < 0.3} = Set.Ico (0 : ℝ) 0.003 ∧
    MeasureTheory.volume (Set.Ico (0 : ℝ) 0.003) = ENNReal.ofReal 0.003 := by
  refine ⟨?_, ?_, ?_⟩
  · simp only [mutate_population, Np.item]
    rw [getD_range_map _ _ _ _ hi]
  · ext x
    simp only [Set.mem_setOf_eq, Set.mem_Ico]
    constructor
    · rintro ⟨⟨hx0, _⟩, hx⟩
      exact ⟨hx0, by linarith⟩
    · rintro ⟨hx0, hx⟩
      exact ⟨⟨hx0, by linarith⟩, by linarith⟩
  · rw [Real.volume_Ico]
    norm_num

/-- C10 (witness): the gating semantics instantiated at the one-member
population [[5]] with chance 0.3 and index 0. -/
theorem mutation_chance_percent_scale_witness :
    (0 : ℕ) < ([Np.arr [Np.scalar 5]] : List Np).length ∧
    ((mutate_population (.arr [Np.arr [Np.scalar 5]]) 0.3 (fun _ => (1 : ℝ) / 2)
        (fun _ => 0) (fun _ _ => 0)).item 0 =
      (if (1 : ℝ) / 2 * 100 < 0.3 then
        mutate (([Np.arr [Np.scalar 5]] : List Np).getD 0 npJunk) 0 (fun _ => 0)
       else ([Np.arr [Np.scalar 5]] : List Np).getD 0 npJunk) ∧
    {x : ℝ | x ∈ Set.Ico (0 : ℝ) 1 ∧ x * 100 < 0.3} = Set.Ico (0 : ℝ) 0.003 ∧
    MeasureTheory.volume (Set.Ico (0 : ℝ) 0.003) = ENNReal.ofReal 0.003) :=
  ⟨by norm_num,
   mutation_chance_percent_scale [Np.arr [Np.scalar 5]] 0.3 (fun _ => (1 : ℝ) / 2)
     (fun _ => 0) (fun _ _ => 0) 0 (by norm_num)⟩

end TGT
